import Mathlib

/-!
Verification development for `llava/model/language_model/mpt/norm.py`.

Shallow embedding of the normalization module: tensors carry a floating
dtype tag, a device, and real-valued data laid out as a list of
trailing-dimension slices.  Floating-point rounding is abstracted to real
arithmetic; dtype bookkeeping (casts, promotion) is modelled exactly as
the torch operations used by the source behave.
-/

/-- Floating dtypes that can occur in this module. -/
inductive DType where
  | fp16
  | bf16
  | fp32
  | fp64
deriving DecidableEq, Repr

/-- Device type of a tensor: `"cuda"`, `"cpu"`, or any other device-type
string (`"mps"`, `"xla"`, ...). -/
inductive Device where
  | cuda
  | cpu
  | other (name : String)
deriving DecidableEq, Repr

/-- Widths used for torch floating-dtype promotion: the result of a
binary op on two different floating dtypes is the wider one, and
`fp16` with `bf16` promotes to `fp32`. -/
def DType.rank : DType → Nat
  | .fp16 => 1
  | .bf16 => 1
  | .fp32 => 2
  | .fp64 => 3

/-- Torch floating-dtype promotion for a binary elementwise op. -/
def promoteDType (a b : DType) : DType :=
  if a = b then a
  else if a.rank = b.rank then .fp32
  else if b.rank < a.rank then a else b

/-- The ambient autocast execution context:
`torch.is_autocast_enabled()`, `torch.get_autocast_gpu_dtype()` and
`torch.get_autocast_cpu_dtype()`. -/
structure AutocastState where
  enabled : Bool
  gpuDtype : DType
  cpuDtype : DType
deriving DecidableEq, Repr

/-- A tensor: dtype tag, device, and real-valued entries grouped as a
list of trailing-dimension slices.  A 1-D tensor (a parameter vector) is
a single slice. -/
structure Tensor where
  dtype : DType
  device : Device
  data : List (List ℝ)

/-- `tensor.to(dtype=d)`: retag the dtype.  Values are exact reals in
this embedding, so the numeric rounding of a downcast is abstracted
away; every dtype-level claim is unaffected. -/
def Tensor.toDtype (t : Tensor) (d : DType) : Tensor :=
  { t with dtype := d }

/-- `x.float()`: cast to 32-bit floating precision. -/
def Tensor.float (t : Tensor) : Tensor :=
  t.toDtype .fp32

/-- `_cast_if_autocast_enabled(tensor)` from the source: when autocast is
enabled, cast to the configured autocast dtype of the tensor device
(gpu policy for `"cuda"`, cpu policy for `"cpu"`), raise
`NotImplementedError` on any other device type; when autocast is
disabled, return the tensor unchanged. -/
def castIfAutocastEnabled (ac : AutocastState) (tensor : Tensor) :
    Except Unit Tensor :=
  if ac.enabled then
    match tensor.device with
    | .cuda => .ok (tensor.toDtype ac.gpuDtype)
    | .cpu => .ok (tensor.toDtype ac.cpuDtype)
    | .other _ => .error ()
  else
    .ok tensor

/-- C4: The precision cast raises its unsupported-device error exactly when
autocast is enabled and the device type is neither `"cuda"` nor
`"cpu"`; in particular with autocast disabled it never raises. -/
theorem cast_error_iff (ac : AutocastState) (t : Tensor) :
    castIfAutocastEnabled ac t = .error () ↔
      ac.enabled = true ∧ t.device ≠ .cuda ∧ t.device ≠ .cpu := by
  unfold castIfAutocastEnabled
  cases hac : ac.enabled with
  | false => simp
  | true =>
    cases ht : t.device with
    | cuda => simp [ht]
    | cpu => simp [ht]
    | other n => simp [ht]

/-- C5: With autocast disabled, the precision cast is the identity: it
returns the tensor unchanged. -/
theorem cast_identity_when_disabled (ac : AutocastState) (t : Tensor)
    (h : ac.enabled = false) :
    castIfAutocastEnabled ac t = .ok t := by
  unfold castIfAutocastEnabled
  simp [h]

/-- Witness for `cast_identity_when_disabled` at a concrete tensor. -/
theorem cast_identity_when_disabled_witness :
    (AutocastState.mk false .fp16 .bf16).enabled = false ∧
      castIfAutocastEnabled (AutocastState.mk false .fp16 .bf16)
        (Tensor.mk .fp32 .cuda [[1, 2]]) =
        .ok (Tensor.mk .fp32 .cuda [[1, 2]]) :=
  ⟨rfl, cast_identity_when_disabled _ _ rfl⟩

/-- C6: With autocast enabled: on a `"cuda"` tensor the precision cast
returns a tensor of the configured gpu autocast dtype, and on a `"cpu"`
tensor it returns a tensor of the configured cpu autocast dtype. -/
theorem cast_dtype_when_enabled (ac : AutocastState) (t : Tensor)
    (h : ac.enabled = true) :
    (t.device = .cuda →
      ∃ y, castIfAutocastEnabled ac t = .ok y ∧ y.dtype = ac.gpuDtype) ∧
    (t.device = .cpu →
      ∃ y, castIfAutocastEnabled ac t = .ok y ∧ y.dtype = ac.cpuDtype) := by
  constructor
  · intro hd
    exact ⟨t.toDtype ac.gpuDtype, by simp [castIfAutocastEnabled, h, hd], rfl⟩
  · intro hd
    exact ⟨t.toDtype ac.cpuDtype, by simp [castIfAutocastEnabled, h, hd], rfl⟩

/-- Witness for `cast_dtype_when_enabled` at a concrete cuda tensor. -/
theorem cast_dtype_when_enabled_witness :
    (AutocastState.mk true .fp16 .bf16).enabled = true ∧
      ((Tensor.mk .fp32 .cuda [[1]]).device = .cuda →
        ∃ y, castIfAutocastEnabled (AutocastState.mk true .fp16 .bf16)
            (Tensor.mk .fp32 .cuda [[1]]) = .ok y ∧
          y.dtype = (AutocastState.mk true .fp16 .bf16).gpuDtype) ∧
      ((Tensor.mk .fp32 .cuda [[1]]).device = .cpu →
        ∃ y, castIfAutocastEnabled (AutocastState.mk true .fp16 .bf16)
            (Tensor.mk .fp32 .cuda [[1]]) = .ok y ∧
          y.dtype = (AutocastState.mk true .fp16 .bf16).cpuDtype) :=
  ⟨rfl, cast_dtype_when_enabled _ _ rfl⟩

/-- Mean of a list of reals (`t.mean` along one dimension). -/
noncomputable def listMean (s : List ℝ) : ℝ :=
  s.sum / s.length

/-- `torch.rsqrt` on a scalar: reciprocal of the square root. -/
noncomputable def rsqrtR (r : ℝ) : ℝ :=
  (Real.sqrt r)⁻¹

/-- `x.pow(2)`: elementwise square. -/
noncomputable def Tensor.pow2 (x : Tensor) : Tensor :=
  { x with data := x.data.map (fun s => s.map (fun v => v ^ 2)) }

/-- `t.mean(-1, keepdim=True)`: per trailing-dimension slice, the mean,
kept as a length-one slice. -/
noncomputable def Tensor.meanKeepdim (x : Tensor) : Tensor :=
  { x with data := x.data.map (fun s => [listMean s]) }

/-- `t + eps` with a python float scalar: elementwise add. -/
noncomputable def Tensor.addScalar (x : Tensor) (c : ℝ) : Tensor :=
  { x with data := x.data.map (fun s => s.map (fun v => v + c)) }

/-- `torch.rsqrt(t)`: elementwise reciprocal square root. -/
noncomputable def Tensor.rsqrt (x : Tensor) : Tensor :=
  { x with data := x.data.map (fun s => s.map rsqrtR) }

/-- `x * m` where `m` has a length-one trailing dimension (a keepdim
result): each slice of `x` is scaled by the matching scalar of `m`,
with torch dtype promotion. -/
noncomputable def Tensor.mulKeepdim (x m : Tensor) : Tensor :=
  { dtype := promoteDType x.dtype m.dtype
    device := x.device
    data := (x.data.zip m.data).map
      (fun p => p.1.map (fun v => v * p.2.headD 0)) }

/-- The values of a parameter vector (a 1-D tensor). -/
def Tensor.vals (w : Tensor) : List ℝ :=
  w.data.flatten

/-- `output * weight` where `weight` is a 1-D tensor of the trailing
dimension size, broadcast over the leading dimension, with torch dtype
promotion. -/
noncomputable def Tensor.mulTrailing (x w : Tensor) : Tensor :=
  { dtype := promoteDType x.dtype w.dtype
    device := x.device
    data := x.data.map (fun s => List.zipWith (· * ·) s w.vals) }

/-- Mean square of a trailing-dimension slice: the scalar that
`x.pow(2).mean(-1)` computes for that slice. -/
noncomputable def sliceMeanSq (s : List ℝ) : ℝ :=
  listMean (s.map (fun v => v ^ 2))

/-- `rms_norm(x, weight=None, eps=1e-05)` from the source:
`output = x * torch.rsqrt(x.pow(2).mean(-1, keepdim=True) + eps)`,
then `output * weight` when a weight is given. -/
noncomputable def rms_norm (x : Tensor) (weight : Option Tensor := none)
    (eps : ℝ := 1e-5) : Tensor :=
  let output := x.mulKeepdim (((x.pow2.meanKeepdim).addScalar eps).rsqrt)
  match weight with
  | some w => output.mulTrailing w
  | none => output

theorem zip_getElem?_some {α β : Type} {l₁ : List α} {l₂ : List β}
    {i : ℕ} {a : α} {b : β} (h₁ : l₁[i]? = some a) (h₂ : l₂[i]? = some b) :
    (l₁.zip l₂)[i]? = some (a, b) := by
  exact List.getElem?_zip_eq_some.mpr ⟨h₁, h₂⟩

theorem rsqrt_chain_data (x : Tensor) (eps : ℝ) :
    (((x.pow2.meanKeepdim).addScalar eps).rsqrt).data =
      x.data.map (fun s => [rsqrtR (sliceMeanSq s + eps)]) := by
  simp [Tensor.pow2, Tensor.meanKeepdim, Tensor.addScalar, Tensor.rsqrt,
    sliceMeanSq, Function.comp]

/-- C1: Pointwise description of `rms_norm`: entry `(i, j)` of the output
is `x i j * rsqrt(sliceMeanSq (x i) + eps)`, further multiplied by
`weight j` when a weight is provided and left unscaled when it is
absent. -/
theorem rms_norm_formula (x : Tensor) (eps : ℝ) (i j : ℕ)
    (s : List ℝ) (v : ℝ)
    (hs : x.data[i]? = some s) (hv : s[j]? = some v) :
    ((rms_norm x none eps).data[i]?.bind (fun os => os[j]?)) =
      some (v * rsqrtR (sliceMeanSq s + eps)) ∧
    ∀ (w : Tensor) (wj : ℝ), w.vals[j]? = some wj →
      ((rms_norm x (some w) eps).data[i]?.bind (fun os => os[j]?)) =
        some (v * rsqrtR (sliceMeanSq s + eps) * wj) := by
  have hm : (((x.pow2.meanKeepdim).addScalar eps).rsqrt).data[i]? =
      some [rsqrtR (sliceMeanSq s + eps)] := by
    rw [rsqrt_chain_data, List.getElem?_map, hs]
    rfl
  have hout : (x.mulKeepdim (((x.pow2.meanKeepdim).addScalar eps).rsqrt)).data[i]? =
      some (s.map (fun v => v * rsqrtR (sliceMeanSq s + eps))) := by
    rw [Tensor.mulKeepdim]
    simp only [List.getElem?_map, zip_getElem?_some hs hm]
    simp
  constructor
  · show ((x.mulKeepdim _).data[i]?.bind _) = _
    rw [hout]
    simp [List.getElem?_map, hv]
  · intro w wj hw
    show ((Tensor.mulTrailing (x.mulKeepdim _) w).data[i]?.bind _) = _
    rw [Tensor.mulTrailing]
    simp only [List.getElem?_map, hout]
    simp [List.getElem?_zipWith', List.getElem?_map, hv, hw]

/-- Witness for `rms_norm_formula`: the input slice `[3, 4]` at entry
`(0, 0)` with `eps = 1` and weight values `[2, 5]`. -/
theorem rms_norm_formula_witness :
    ((Tensor.mk .fp32 .cpu [[3, 4]]).data[0]? = some [3, 4] ∧
      ([3, 4] : List ℝ)[0]? = some 3) ∧
    (((rms_norm (Tensor.mk .fp32 .cpu [[3, 4]]) none 1).data[0]?.bind
        (fun os => os[0]?)) =
      some (3 * rsqrtR (sliceMeanSq [3, 4] + 1)) ∧
    ∀ (w : Tensor) (wj : ℝ), w.vals[0]? = some wj →
      ((rms_norm (Tensor.mk .fp32 .cpu [[3, 4]]) (some w) 1).data[0]?.bind
          (fun os => os[0]?)) =
        some (3 * rsqrtR (sliceMeanSq [3, 4] + 1) * wj)) :=
  ⟨⟨rfl, rfl⟩, rms_norm_formula (Tensor.mk .fp32 .cpu [[3, 4]]) 1 0 0 [3, 4] 3 rfl rfl⟩

theorem rms_output_slice (x : Tensor) (eps : ℝ) (i : ℕ) (s : List ℝ)
    (hs : x.data[i]? = some s) :
    (x.mulKeepdim (((x.pow2.meanKeepdim).addScalar eps).rsqrt)).data[i]? =
      some (s.map (fun v => v * rsqrtR (sliceMeanSq s + eps))) := by
  have hm : (((x.pow2.meanKeepdim).addScalar eps).rsqrt).data[i]? =
      some [rsqrtR (sliceMeanSq s + eps)] := by
    rw [rsqrt_chain_data, List.getElem?_map, hs]
    rfl
  rw [Tensor.mulKeepdim]
  simp only [List.getElem?_map, zip_getElem?_some hs hm]
  simp

/-- C7: On a trailing-dimension slice whose entries are all zero, with
`eps > 0`, the argument of `rsqrt` stays strictly positive (so the
reciprocal square root is taken of a nonzero quantity, never dividing
by zero) and the corresponding output slice of `rms_norm` is all
zeros — with or without a weight. -/
theorem rms_norm_zero_slice (x : Tensor) (w : Option Tensor) (eps : ℝ)
    (i : ℕ) (s : List ℝ) (heps : 0 < eps)
    (hs : x.data[i]? = some s) (hz : ∀ v ∈ s, v = 0) :
    0 < sliceMeanSq s + eps ∧
    ∃ os, (rms_norm x w eps).data[i]? = some os ∧
      ∀ (j : ℕ) (u : ℝ), os[j]? = some u → u = 0 := by
  have h0 : sliceMeanSq s = 0 := by
    have hsum : (s.map (fun v => v ^ 2)).sum = 0 := by
      refine List.sum_eq_zero ?_
      intro a ha
      obtain ⟨v, hv, rfl⟩ := List.mem_map.mp ha
      rw [hz v hv]
      ring
    simp [sliceMeanSq, listMean, hsum]
  refine ⟨by rw [h0, zero_add]; exact heps, ?_⟩
  have hzero : ∀ (j : ℕ) (u : ℝ),
      (s.map (fun v => v * rsqrtR (sliceMeanSq s + eps)))[j]? = some u →
        u = 0 := by
    intro j u hu
    rw [List.getElem?_map] at hu
    cases hsj : s[j]? with
    | none => rw [hsj] at hu; simp at hu
    | some a =>
      rw [hsj] at hu
      simp only [Option.map_some'] at hu
      have ha : a = 0 := hz a (List.getElem?_mem hsj)
      have h2 : a * rsqrtR (sliceMeanSq s + eps) = u := Option.some.inj hu
      rw [← h2, ha]
      ring
  cases w with
  | none =>
    refine ⟨_, rms_output_slice x eps i s hs, hzero⟩
  | some wt =>
    refine ⟨List.zipWith (· * ·)
        (s.map (fun v => v * rsqrtR (sliceMeanSq s + eps))) wt.vals, ?_, ?_⟩
    · show (Tensor.mulTrailing (x.mulKeepdim _) wt).data[i]? = _
      rw [Tensor.mulTrailing]
      simp only [List.getElem?_map, rms_output_slice x eps i s hs]
      rfl
    · intro j u hu
      obtain ⟨a, b, ha, hb, hab⟩ := List.getElem?_zipWith_eq_some.mp hu
      have ha0 : a = 0 := hzero j a ha
      rw [← hab, ha0]
      ring

/-- Witness for `rms_norm_zero_slice`: the all-zero slice `[0, 0]` with
`eps = 1` and no weight. -/
theorem rms_norm_zero_slice_witness :
    ((0 : ℝ) < 1 ∧
      (Tensor.mk .fp32 .cpu [[0, 0]]).data[0]? = some [0, 0] ∧
      (∀ v ∈ ([0, 0] : List ℝ), v = 0)) ∧
    (0 < sliceMeanSq [0, 0] + 1 ∧
      ∃ os, (rms_norm (Tensor.mk .fp32 .cpu [[0, 0]]) none 1).data[0]? =
          some os ∧ ∀ (j : ℕ) (u : ℝ), os[j]? = some u → u = 0) :=
  ⟨⟨one_pos, rfl, by simp⟩,
    rms_norm_zero_slice (Tensor.mk .fp32 .cpu [[0, 0]]) none 1 0 [0, 0]
      one_pos rfl (by simp)⟩

/-- Counterexample to C2: `rms_norm` applied to a 16-bit floating input
returns a 16-bit floating output, not a 32-bit one — the function
itself performs no cast to full precision. -/
theorem rms_norm_dtype_counterexample :
    (rms_norm (Tensor.mk .fp16 .cpu [[1]]) none 1).dtype ≠ DType.fp32 := by
  simp [rms_norm, Tensor.mulKeepdim, Tensor.rsqrt, Tensor.addScalar,
    Tensor.meanKeepdim, Tensor.pow2, promoteDType]

/-- C2 (amended): `rms_norm` itself performs no precision cast: its
output dtype is its input dtype, promoted with the weight dtype when a
weight is provided.  (The full-precision upcast the spec describes is
performed by the caller `RMSNorm.forward`, which hands `x.float()` to
`rms_norm`.) -/
theorem rms_norm_dtype (x : Tensor) (eps : ℝ) :
    (rms_norm x none eps).dtype = x.dtype ∧
    ∀ w : Tensor, (rms_norm x (some w) eps).dtype =
      promoteDType x.dtype w.dtype := by
  constructor
  · simp [rms_norm, Tensor.mulKeepdim, Tensor.rsqrt, Tensor.addScalar,
      Tensor.meanKeepdim, Tensor.pow2, promoteDType]
  · intro w
    simp [rms_norm, Tensor.mulKeepdim, Tensor.mulTrailing, Tensor.rsqrt,
      Tensor.addScalar, Tensor.meanKeepdim, Tensor.pow2, promoteDType]

/-- State of an `RMSNorm` (and of its subclass `LPRMSNorm`): the epsilon
and the optional learnable scale parameter. -/
structure RMSNormModule where
  eps : ℝ
  weight : Option Tensor

/-- `RMSNorm.__init__(normalized_shape, eps=1e-05, weight=True, dtype=None,
device=None)`: when `weight` is true the scale parameter is
`torch.ones(normalized_shape)`; otherwise no weight parameter is
registered. -/
noncomputable def RMSNormModule.init (normalized_shape : ℕ)
    (eps : ℝ := 1e-5) (weight : Bool := true) (dtype : DType := .fp32)
    (device : Device := .cpu) : RMSNormModule :=
  { eps := eps
    weight :=
      if weight then
        some (Tensor.mk dtype device [List.replicate normalized_shape 1])
      else none }

/-- `RMSNorm.forward(x)`:
`rms_norm(x.float(), self.weight, self.eps).to(dtype=x.dtype)`. -/
noncomputable def RMSNormModule.forward (m : RMSNormModule) (x : Tensor) :
    Tensor :=
  (rms_norm (x.float) m.weight m.eps).toDtype x.dtype

/-- The pattern `_cast_if_autocast_enabled(w) if w is not None else w`
used for the optional weight and bias parameters. -/
def castOptional (ac : AutocastState) :
    Option Tensor → Except Unit (Option Tensor)
  | some w => (castIfAutocastEnabled ac w).map some
  | none => .ok none

/-- `LPRMSNorm.forward(x)`: pass `x` and the weight independently
through `_cast_if_autocast_enabled`, run `rms_norm` inside
`torch.autocast(enabled=False)` (none of the ops `rms_norm` uses
consults the autocast policy, so the disabled context is modelled by
calling `rms_norm` directly), then cast back to `x.dtype`. -/
noncomputable def LPRMSNorm.forward (ac : AutocastState)
    (m : RMSNormModule) (x : Tensor) : Except Unit Tensor :=
  match castIfAutocastEnabled ac x with
  | .error e => .error e
  | .ok downcast_x =>
    match castOptional ac m.weight with
    | .error e => .error e
    | .ok downcast_weight =>
      .ok ((rms_norm downcast_x downcast_weight m.eps).toDtype x.dtype)

/-- C3: Both RMS layers restore the input dtype: `RMSNorm.forward`
always returns a tensor of `x`'s dtype, and whenever `LPRMSNorm.forward`
returns a tensor (rather than raising), that tensor has `x`'s dtype,
whatever the internal compute precision was. -/
theorem rms_layers_preserve_dtype (m : RMSNormModule) (ac : AutocastState)
    (x y : Tensor) (h : LPRMSNorm.forward ac m x = .ok y) :
    (RMSNormModule.forward m x).dtype = x.dtype ∧ y.dtype = x.dtype := by
  refine ⟨rfl, ?_⟩
  unfold LPRMSNorm.forward at h
  cases hx : castIfAutocastEnabled ac x with
  | error e => rw [hx] at h; exact absurd h (by simp)
  | ok dx =>
    cases hw : castOptional ac m.weight with
    | error e =>
      rw [hx, hw] at h
      exact absurd h (by simp)
    | ok dw =>
      rw [hx, hw] at h
      cases h
      rfl

/-- Witness for `rms_layers_preserve_dtype` at a concrete 16-bit input
with autocast disabled. -/
theorem rms_layers_preserve_dtype_witness :
    LPRMSNorm.forward (AutocastState.mk false .fp16 .bf16)
        (RMSNormModule.mk 1 none) (Tensor.mk .fp16 .cpu []) =
      .ok (Tensor.mk .fp16 .cpu []) ∧
    ((RMSNormModule.forward (RMSNormModule.mk 1 none)
        (Tensor.mk .fp16 .cpu [])).dtype = (Tensor.mk .fp16 .cpu []).dtype ∧
      (Tensor.mk .fp16 .cpu []).dtype = (Tensor.mk .fp16 .cpu []).dtype) :=
  ⟨rfl, rms_layers_preserve_dtype (RMSNormModule.mk 1 none)
    (AutocastState.mk false .fp16 .bf16) (Tensor.mk .fp16 .cpu [])
    (Tensor.mk .fp16 .cpu []) rfl⟩

theorem rms_norm_float_toDtype (x : Tensor) (w : Option Tensor) (e : ℝ)
    (d : DType) :
    (rms_norm (x.float) w e).toDtype d = (rms_norm x w e).toDtype d := by
  cases w with
  | none =>
    simp [rms_norm, Tensor.float, Tensor.toDtype, Tensor.mulKeepdim,
      Tensor.rsqrt, Tensor.addScalar, Tensor.meanKeepdim, Tensor.pow2]
  | some wt =>
    simp [rms_norm, Tensor.float, Tensor.toDtype, Tensor.mulKeepdim,
      Tensor.mulTrailing, Tensor.rsqrt, Tensor.addScalar,
      Tensor.meanKeepdim, Tensor.pow2]

/-- C10: With autocast disabled and a full-precision input, the
low-precision RMS layer agrees exactly with the standard RMS layer
holding the same state: `LPRMSNorm.forward` returns precisely
`RMSNorm.forward`'s output. -/
theorem lp_rms_equiv_fp32 (ac : AutocastState) (m : RMSNormModule)
    (x : Tensor) (hac : ac.enabled = false) (_hx : x.dtype = .fp32) :
    LPRMSNorm.forward ac m x = .ok (RMSNormModule.forward m x) := by
  unfold LPRMSNorm.forward RMSNormModule.forward
  have hcx : castIfAutocastEnabled ac x = .ok x := by
    simp [castIfAutocastEnabled, hac]
  have hcw : castOptional ac m.weight = .ok m.weight := by
    cases hm : m.weight with
    | none => rfl
    | some wt =>
      show (castIfAutocastEnabled ac wt).map some = _
      simp [castIfAutocastEnabled, hac]
      rfl
  rw [hcx, hcw, rms_norm_float_toDtype]

/-- Witness for `lp_rms_equiv_fp32` at a concrete full-precision input
with autocast disabled. -/
theorem lp_rms_equiv_fp32_witness :
    ((AutocastState.mk false .fp16 .bf16).enabled = false ∧
      (Tensor.mk .fp32 .cpu [[1, 2]]).dtype = .fp32) ∧
    LPRMSNorm.forward (AutocastState.mk false .fp16 .bf16)
        (RMSNormModule.mk 1 none) (Tensor.mk .fp32 .cpu [[1, 2]]) =
      .ok (RMSNormModule.forward (RMSNormModule.mk 1 none)
        (Tensor.mk .fp32 .cpu [[1, 2]])) :=
  ⟨⟨rfl, rfl⟩, lp_rms_equiv_fp32 (AutocastState.mk false .fp16 .bf16)
    (RMSNormModule.mk 1 none) (Tensor.mk .fp32 .cpu [[1, 2]]) rfl rfl⟩

/-- State of an `LPLayerNorm` (a `torch.nn.LayerNorm` subclass): epsilon
and the optional learnable scale and bias parameters
(`elementwise_affine`). -/
structure LPLayerNormModule where
  eps : ℝ
  weight : Option Tensor
  bias : Option Tensor

/-- `torch.nn.functional.layer_norm(x, normalized_shape, weight, bias,
eps)`: per trailing-dimension slice, subtract the mean, divide by the
square root of the (biased) variance plus `eps`, then apply the
optional scale and bias.  Under an enabled autocast context torch runs
`layer_norm` at full 32-bit precision (it is on the fp32 autocast op
list); otherwise it computes at the input dtype. -/
noncomputable def layer_norm (ac : AutocastState) (x : Tensor)
    (weight bias : Option Tensor) (eps : ℝ) : Tensor :=
  { dtype := if ac.enabled then DType.fp32 else x.dtype
    device := x.device
    data := x.data.map (fun s =>
      let mu := listMean s
      let sigma2 := listMean (s.map (fun v => (v - mu) ^ 2))
      let normed := s.map (fun v => (v - mu) * rsqrtR (sigma2 + eps))
      let scaled :=
        match weight with
        | some w => List.zipWith (· * ·) normed w.vals
        | none => normed
      match bias with
      | some b => List.zipWith (· + ·) scaled b.vals
      | none => scaled) }

/-- `LPLayerNorm.forward(x)`: pass `x`, the weight and the bias each
independently through `_cast_if_autocast_enabled`, then run
`torch.nn.functional.layer_norm` inside
`torch.autocast(enabled=False)` and return its result as is. -/
noncomputable def LPLayerNorm.forward (ac : AutocastState)
    (m : LPLayerNormModule) (x : Tensor) : Except Unit Tensor :=
  match castIfAutocastEnabled ac x with
  | .error e => .error e
  | .ok downcast_x =>
    match castOptional ac m.weight with
    | .error e => .error e
    | .ok downcast_weight =>
      match castOptional ac m.bias with
      | .error e => .error e
      | .ok downcast_bias =>
        .ok (layer_norm { ac with enabled := false } downcast_x
          downcast_weight downcast_bias m.eps)

/-- C8: `LPLayerNorm.forward` routes the input, weight and bias through
the precision cast, evaluates the layer normalization with autocast
forced off, and returns that value without a cast back: any returned
tensor equals the layer-norm of the downcast operands, its dtype is the
downcast input dtype, and when autocast rewrites the dtype on a cuda
input the output dtype differs from the original input dtype. -/
theorem lp_layer_norm_forward_no_upcast (ac : AutocastState)
    (m : LPLayerNormModule) (x y dx : Tensor)
    (hx : castIfAutocastEnabled ac x = .ok dx)
    (h : LPLayerNorm.forward ac m x = .ok y) :
    y.dtype = dx.dtype ∧
    (∀ dw db, castOptional ac m.weight = .ok dw →
      castOptional ac m.bias = .ok db →
      y = layer_norm { ac with enabled := false } dx dw db m.eps) ∧
    (ac.enabled = true → x.device = .cuda → ac.gpuDtype ≠ x.dtype →
      y.dtype ≠ x.dtype) := by
  unfold LPLayerNorm.forward at h
  rw [hx] at h
  cases hw : castOptional ac m.weight with
  | error e => rw [hw] at h; exact absurd h (by simp)
  | ok dw =>
    cases hb : castOptional ac m.bias with
    | error e => rw [hw, hb] at h; exact absurd h (by simp)
    | ok db =>
      rw [hw, hb] at h
      cases h
      have hdty : (layer_norm { ac with enabled := false } dx dw db
          m.eps).dtype = dx.dtype := rfl
      refine ⟨hdty, ?_, ?_⟩
      · intro dw2 db2 hw2 hb2
        obtain rfl : dw = dw2 := Except.ok.inj hw2
        obtain rfl : db = db2 := Except.ok.inj hb2
        rfl
      · intro hen hcuda hne
        rw [hdty]
        have : dx = x.toDtype ac.gpuDtype := by
          rw [castIfAutocastEnabled, hen, hcuda] at hx
          simpa using hx.symm
        rw [this]
        exact fun hcon => hne hcon

/-- Witness for `lp_layer_norm_forward_no_upcast`: autocast enabled with
gpu dtype `fp16` and a full-precision cuda input, so the output dtype is
`fp16`, not the input's `fp32`. -/
theorem lp_layer_norm_forward_no_upcast_witness :
    (castIfAutocastEnabled (AutocastState.mk true .fp16 .bf16)
        (Tensor.mk .fp32 .cuda []) = .ok (Tensor.mk .fp16 .cuda []) ∧
      LPLayerNorm.forward (AutocastState.mk true .fp16 .bf16)
        (LPLayerNormModule.mk 1 none none) (Tensor.mk .fp32 .cuda []) =
        .ok (Tensor.mk .fp16 .cuda [])) ∧
    ((Tensor.mk .fp16 .cuda []).dtype = (Tensor.mk .fp16 .cuda []).dtype ∧
      (∀ dw db,
        castOptional (AutocastState.mk true .fp16 .bf16)
          (LPLayerNormModule.mk 1 none none).weight = .ok dw →
        castOptional (AutocastState.mk true .fp16 .bf16)
          (LPLayerNormModule.mk 1 none none).bias = .ok db →
        Tensor.mk .fp16 .cuda [] =
          layer_norm { AutocastState.mk true .fp16 .bf16 with
            enabled := false } (Tensor.mk .fp16 .cuda []) dw db
            (LPLayerNormModule.mk 1 none none).eps) ∧
      ((AutocastState.mk true .fp16 .bf16).enabled = true →
        (Tensor.mk .fp32 .cuda []).device = .cuda →
        (AutocastState.mk true .fp16 .bf16).gpuDtype ≠
          (Tensor.mk .fp32 .cuda []).dtype →
        (Tensor.mk .fp16 .cuda []).dtype ≠
          (Tensor.mk .fp32 .cuda []).dtype)) :=
  ⟨⟨rfl, rfl⟩, lp_layer_norm_forward_no_upcast
    (AutocastState.mk true .fp16 .bf16) (LPLayerNormModule.mk 1 none none)
    (Tensor.mk .fp32 .cuda []) (Tensor.mk .fp16 .cuda [])
    (Tensor.mk .fp16 .cuda []) rfl rfl⟩

/-- The four constructible normalization classes the registry maps to:
`torch.nn.LayerNorm` and the three classes of this module. -/
inductive NormClass where
  | torchLayerNorm
  | lpLayerNormClass
  | rmsNormClass
  | lpRMSNormClass
deriving DecidableEq, Repr

/-- `NORM_CLASS_REGISTRY`, the module-level dict literal built once at
import.  It is modelled as a constant association list: no code in the
module ever writes to the dict after this literal is evaluated. -/
def NORM_CLASS_REGISTRY : List (String × NormClass) :=
  [("layernorm", .torchLayerNorm),
   ("low_precision_layernorm", .lpLayerNormClass),
   ("rmsnorm", .rmsNormClass),
   ("low_precision_rmsnorm", .lpRMSNormClass)]

/-- C9: The registry's domain is exactly the four keys `"layernorm"`,
`"low_precision_layernorm"`, `"rmsnorm"`, `"low_precision_rmsnorm"`,
bound respectively to the standard layer-norm class, `LPLayerNorm`,
`RMSNorm` and `LPRMSNorm`; it is a constant built once (the module never
mutates it). -/
theorem norm_registry_contents :
    NORM_CLASS_REGISTRY.map Prod.fst =
      ["layernorm", "low_precision_layernorm", "rmsnorm",
        "low_precision_rmsnorm"] ∧
    NORM_CLASS_REGISTRY.lookup "layernorm" = some .torchLayerNorm ∧
    NORM_CLASS_REGISTRY.lookup "low_precision_layernorm" =
      some .lpLayerNormClass ∧
    NORM_CLASS_REGISTRY.lookup "rmsnorm" = some .rmsNormClass ∧
    NORM_CLASS_REGISTRY.lookup "low_precision_rmsnorm" =
      some .lpRMSNormClass := by
  refine ⟨rfl, ?_, ?_, ?_, ?_⟩ <;> rfl
